import Mathlib

set_option maxHeartbeats 1000000
set_option maxRecDepth 20000

/-!
Verification development for the DataStorage library
(src/build/DataStorage.js of Raphyah/DataStorage).

The JavaScript source is shallowly embedded as executable Lean
definitions:

* JS strings are lists of UTF-16 code units (`JStr := List Nat`);
  `String.prototype.length` is `List.length`.
* The structured values stored in the `CloneableMap` are modelled by the
  inductive `JValue` (JS numbers are restricted to integers; floating
  point formatting is outside the model).
* The host built-ins `JSON.stringify` / `JSON.parse` (the default
  notation handler installed by the library) are modelled by
  `jsonStringify` / `jsonParse` below.  `jsonStringify` emits the
  canonical compact form (no whitespace, `\u00XX` escapes for control
  characters); `jsonParse` accepts exactly those canonical forms, which
  is the fragment needed to reason about round trips of the library's
  own output.
* Fallible JS code (functions that may throw) returns `Except`.
-/

namespace DataStorage

/-- JS strings, modelled as lists of UTF-16 code units. -/
abbrev JStr := List Nat

/-- Model of the JSON-representable structured values stored in the map.
Numbers are modelled as integers. -/
inductive JValue where
  | jnull
  | jbool (b : Bool)
  | jnum (n : Int)
  | jstr (s : JStr)
  | jarr (xs : List JValue)
  | jobj (kvs : List (JStr × JValue))

/-- ASCII decimal digit test. -/
def isDigit (c : Nat) : Bool := 48 ≤ c && c ≤ 57

/-- Decimal digits (as ASCII codes) of a natural number, most significant
first. -/
def natToDigits (n : Nat) : List Nat :=
  if n < 10 then [48 + n] else natToDigits (n / 10) ++ [48 + n % 10]
decreasing_by exact Nat.div_lt_self (by omega) (by omega)

/-- Value of a list of ASCII decimal digits. -/
def digitsToNat (ds : List Nat) : Nat := ds.foldl (fun a d => a * 10 + (d - 48)) 0

/-- ASCII code of a hexadecimal digit (lower case letters). -/
def hexDigit (n : Nat) : Nat := if n < 10 then 48 + n else 87 + n

/-- Hexadecimal digit test (as emitted by `hexDigit`). -/
def isHexDigit (c : Nat) : Bool := (48 ≤ c && c ≤ 57) || (97 ≤ c && c ≤ 102)

/-- Value of a hexadecimal digit code. -/
def hexVal (c : Nat) : Nat := if c ≤ 57 then c - 48 else c - 87

/-- Four-digit hexadecimal rendering of a code unit (for `\uXXXX`). -/
def hex4 (n : Nat) : List Nat :=
  [hexDigit (n / 4096 % 16), hexDigit (n / 256 % 16), hexDigit (n / 16 % 16), hexDigit (n % 16)]

/-- JSON escaping of one string character: `"` and `\` get a backslash
escape, control characters a `\uXXXX` escape, anything else is literal. -/
def escapeChar (c : Nat) : List Nat :=
  if c = 34 then [92, 34]
  else if c = 92 then [92, 92]
  else if c < 32 then 92 :: 117 :: hex4 c
  else [c]

/-- JSON rendering of a string: a quoted, escaped character sequence. -/
def escapeString (s : JStr) : List Nat := 34 :: (s.flatMap escapeChar ++ [34])

/-- Decimal rendering of an integer. -/
def intToDigits (i : Int) : List Nat :=
  if i < 0 then 45 :: natToDigits i.natAbs else natToDigits i.toNat

mutual

/-- Model of the host `JSON.stringify` on `JValue` (compact form). -/
def jsonStringify : JValue → List Nat
  | .jnull => [110, 117, 108, 108]
  | .jbool true => [116, 114, 117, 101]
  | .jbool false => [102, 97, 108, 115, 101]
  | .jnum i => intToDigits i
  | .jstr s => escapeString s
  | .jarr xs => 91 :: (stringifyItems xs ++ [93])
  | .jobj kvs => 123 :: (stringifyMembers kvs ++ [125])

/-- Comma-separated renderings of array elements. -/
def stringifyItems : List JValue → List Nat
  | [] => []
  | [x] => jsonStringify x
  | x :: y :: xs => jsonStringify x ++ 44 :: stringifyItems (y :: xs)

/-- Comma-separated renderings of object members. -/
def stringifyMembers : List (JStr × JValue) → List Nat
  | [] => []
  | [(k, v)] => escapeString k ++ 58 :: jsonStringify v
  | (k, v) :: m :: kvs => escapeString k ++ 58 :: jsonStringify v ++ 44 :: stringifyMembers (m :: kvs)

end

/-- Parser for the body of a JSON string literal (after the opening
quote); returns the decoded characters and the input remaining after the
closing quote. -/
def parseStringBody : List Nat → Option (JStr × List Nat)
  | [] => none
  | c :: r =>
    if c = 34 then some ([], r)
    else if c = 92 then
      match r with
      | [] => none
      | e :: r2 =>
        if e = 34 then (parseStringBody r2).map fun p => (34 :: p.1, p.2)
        else if e = 92 then (parseStringBody r2).map fun p => (92 :: p.1, p.2)
        else if e = 117 then
          match r2 with
          | a :: b :: c2 :: d :: r3 =>
            if isHexDigit a && isHexDigit b && isHexDigit c2 && isHexDigit d then
              (parseStringBody r3).map fun p =>
                ((hexVal a * 4096 + hexVal b * 256 + hexVal c2 * 16 + hexVal d) :: p.1, p.2)
            else none
          | _ => none
        else none
    else (parseStringBody r).map fun p => (c :: p.1, p.2)

/-- Splits off the longest leading run of decimal digits. -/
def takeDigits : List Nat → JStr × List Nat
  | [] => ([], [])
  | c :: r =>
    if isDigit c then
      let p := takeDigits (r : List Nat)
      (c :: p.1, p.2)
    else ([], c :: r)

/-- Parses a nonempty run of decimal digits as a natural number. -/
def parseNum (s : List Nat) : Option (Nat × List Nat) :=
  match takeDigits s with
  | ([], _) => none
  | (d :: ds, r) => some (digitsToNat (d :: ds), r)

/-- True when the input begins with a decimal digit. -/
def digitStart : List Nat → Bool
  | [] => false
  | c :: _ => isDigit c

mutual

/-- Fuel-indexed parser for one JSON value; returns the value and the
remaining input. -/
def parseVal : Nat → List Nat → Option (JValue × List Nat)
  | 0, _ => none
  | _ + 1, [] => none
  | f + 1, c :: r =>
    if c = 110 then
      match r with
      | 117 :: 108 :: 108 :: r2 => some (.jnull, r2)
      | _ => none
    else if c = 116 then
      match r with
      | 114 :: 117 :: 101 :: r2 => some (.jbool true, r2)
      | _ => none
    else if c = 102 then
      match r with
      | 97 :: 108 :: 115 :: 101 :: r2 => some (.jbool false, r2)
      | _ => none
    else if c = 34 then
      (parseStringBody r).map fun p => (.jstr p.1, p.2)
    else if c = 91 then
      match r with
      | 93 :: r2 => some (.jarr [], r2)
      | _ => (parseItems f r).map fun p => (.jarr p.1, p.2)
    else if c = 123 then
      match r with
      | 125 :: r2 => some (.jobj [], r2)
      | _ => (parseMembers f r).map fun p => (.jobj p.1, p.2)
    else if c = 45 then
      (parseNum r).map fun p => (.jnum (-(p.1 : Int)), p.2)
    else if isDigit c then
      (parseNum (c :: r)).map fun p => (.jnum (p.1 : Int), p.2)
    else none

/-- Parses the nonempty element list of a JSON array, including the
closing bracket. -/
def parseItems : Nat → List Nat → Option (List JValue × List Nat)
  | 0, _ => none
  | f + 1, s =>
    (parseVal f s).bind fun p =>
      match p.2 with
      | 44 :: r2 => (parseItems f r2).map fun q => (p.1 :: q.1, q.2)
      | 93 :: r2 => some ([p.1], r2)
      | _ => none

/-- Parses the nonempty member list of a JSON object, including the
closing brace. -/
def parseMembers : Nat → List Nat → Option (List (JStr × JValue) × List Nat)
  | 0, _ => none
  | f + 1, s =>
    match s with
    | 34 :: r =>
      (parseStringBody r).bind fun kp =>
        match kp.2 with
        | 58 :: r3 =>
          (parseVal f r3).bind fun vp =>
            match vp.2 with
            | 44 :: r5 => (parseMembers f r5).map fun q => ((kp.1, vp.1) :: q.1, q.2)
            | 125 :: r5 => some ([(kp.1, vp.1)], r5)
            | _ => none
        | _ => none
    | _ => none

end

/-- Model of the host `JSON.parse` on the canonical forms produced by
`jsonStringify`; `none` models a thrown `SyntaxError`. -/
def jsonParse (s : List Nat) : Option JValue :=
  (parseVal (s.length + 1) s).bind fun p => if p.2 = [] then some p.1 else none

/-! ## Key-value stores

Both the host's dynamic-property store (`setDynamicProperty` /
`getDynamicProperty` / `getDynamicPropertyIds`) and the library's
`CloneableMap` (a JS `Map`) are insertion-ordered key-value stores with
upsert semantics: setting an existing key updates it in place, setting a
new key appends it.  They are modelled as association lists. -/

/-- Lookup of the first entry with the given key. -/
def assocGet {α : Type} (m : List (JStr × α)) (k : JStr) : Option α :=
  (m.find? fun p => p.1 == k).map Prod.snd

/-- Upsert: update the entry in place if the key exists (keeping its
position), else append.  Keys of a JS `Map` and of the host property
store are unique, so updating the first occurrence is exact. -/
def assocSet {α : Type} : List (JStr × α) → JStr → α → List (JStr × α)
  | [], k, v => [(k, v)]
  | p :: m, k, v => if p.1 == k then (k, v) :: m else p :: assocSet m k v

/-- Host dynamic-property store of the target object. -/
abbrev Host := List (JStr × JStr)

/-! ## The codec pipeline and the DataStorage operations -/

/-- The function pairs held by the configured `Compressor` and
`NotationHandler` of a DataStorage instance.  Each function models a JS
function that may throw (`Except`). -/
structure Codec where
  stringifyFn : JValue → Except Unit JStr
  compressFn : JStr → Except Unit JStr
  decompressFn : JStr → Except Unit JStr
  parseFn : JStr → Except Unit JValue

/-- The default codecs installed by the library at process start: the
identity compressor named "none" and the JSON handler named "json"
(whose parseMethod/stringifyMethod are the host `JSON.parse` /
`JSON.stringify`). -/
def defaultCodec : Codec where
  stringifyFn v := .ok (jsonStringify v)
  compressFn s := .ok s
  decompressFn s := .ok s
  parseFn s := match jsonParse s with | some v => .ok v | none => .error ()

/-- Which save path an observable action originated from. -/
inductive Origin where
  | syncSave
  | asyncSave
  deriving DecidableEq, Repr

/-- Observable actions of a DataStorage instance against the host and
the console. -/
inductive Event where
  | hostWrite (o : Origin) (k : JStr) (s : JStr)
  | logError
  | uncaught
  | hostRead (k : JStr)
  | readIds
  deriving DecidableEq, Repr

/-- Configuration of one DataStorage instance for the save/load paths:
its codec pair, its safe length, and the host's write behaviour
(`writeOk k v = false` models `setDynamicProperty` throwing on that
write). -/
structure Cfg where
  codec : Codec
  writeOk : JStr → JStr → Bool
  safeLen : Nat

/-- Model of `this.compressor.compress(this.notationHandler.stringify(VALUE))`. -/
def encodeEntry (c : Codec) (v : JValue) : Except Unit JStr :=
  (c.stringifyFn v).bind c.compressFn

/-- Model of `DataStorage.#saveRaw(key, value)`: inside a try/catch, the
value is written only when its length is at most the safe length,
otherwise an error is logged; a throwing host write is caught and
logged. -/
def saveRaw (cfg : Cfg) (o : Origin) (host : Host) (k dat : JStr) : Host × List Event :=
  if dat.length ≤ cfg.safeLen then
    if cfg.writeOk k dat then (assocSet host k dat, [.hostWrite o k dat])
    else (host, [.logError])
  else (host, [.logError])

/-- One entry of the save pipeline: encode, then `#saveRaw`.  An
`Except.error` result models the stringify/compress call throwing (a
`#saveRaw` failure is already contained inside `saveRaw`). -/
def processEntry (cfg : Cfg) (o : Origin) (host : Host) (k : JStr) (v : JValue) :
    Except Unit (Host × List Event) :=
  (encodeEntry cfg.codec v).map fun dat => saveRaw cfg o host k dat

/-- The entry loop of `DataStorage.prototype.save`: every entry is
processed in insertion order inside a try/catch, so a throwing codec is
logged and the loop continues with the next entry. -/
def saveEntriesGo (cfg : Cfg) : Host → List (JStr × JValue) → Host × List Event
  | host, [] => (host, [])
  | host, (k, v) :: es =>
    match processEntry cfg .syncSave host k v with
    | .ok (h2, evs) =>
      let r := saveEntriesGo cfg h2 es
      (r.1, evs ++ r.2)
    | .error _ =>
      let r := saveEntriesGo cfg host es
      (r.1, .logError :: r.2)

/-- The per-instance fields of a DataStorage relevant to save/load:
the `CloneableMap` (`data`), the `#loaded` flag, and the two save-state
flags `#synchronousSave` / `#asynchronousSave`. -/
structure DStore where
  data : List (JStr × JValue)
  loaded : Bool
  syncFlag : Bool
  asyncFlag : Bool

/-- Model of `DataStorage.prototype.save`: re-entry guarded by the
synchronous flag; otherwise the flag is set, every current entry is
written through the pipeline, and the flag is cleared again before the
call returns. -/
def saveDS (cfg : Cfg) (ds : DStore) (host : Host) : DStore × Host × List Event :=
  if ds.syncFlag then (ds, host, [])
  else
    let r := saveEntriesGo cfg host ds.data
    ({ ds with syncFlag := false }, r.1, r.2)

/-- Model of one key of `DataStorage.prototype.load`: the raw host read
happens first (`#loadRaw`), then decompress + parse + `data.set` run in
a try/catch whose handler only logs.  Reading an absent key yields
`undefined`, which makes the parse step throw. -/
def loadKey (cfg : Cfg) (host : Host) (data : List (JStr × JValue)) (k : JStr) :
    List (JStr × JValue) × List Event :=
  match assocGet host k with
  | none => (data, [.hostRead k, .logError])
  | some raw =>
    match (cfg.codec.decompressFn raw).bind cfg.codec.parseFn with
    | .ok v => (assocSet data k v, [.hostRead k])
    | .error _ => (data, [.hostRead k, .logError])

/-- The key loop of `DataStorage.prototype.load`. -/
def loadGo (cfg : Cfg) (host : Host) : List (JStr × JValue) → List JStr →
    List (JStr × JValue) × List Event
  | data, [] => (data, [])
  | data, k :: ks =>
    let r := loadKey cfg host data k
    let r2 := loadGo cfg host r.1 ks
    (r2.1, r.2 ++ r2.2)

/-- Model of `DataStorage.prototype.load`: on any call after the first
it returns the existing map untouched; on the first call it enumerates
the host's dynamic property ids, decodes each key (logging and skipping
per-key failures), sets `#loaded` unconditionally, and returns the map.
The third component is the value returned to the caller. -/
def load (cfg : Cfg) (host : Host) (ds : DStore) :
    DStore × List Event × List (JStr × JValue) :=
  if ds.loaded then (ds, [], ds.data)
  else
    let r := loadGo cfg host ds.data (host.map Prod.fst)
    ({ ds with data := r.1, loaded := true }, .readIds :: r.2, r.1)

/-! ## The cooperative save scheduler

`saveAsync` runs `smoothLoop`, whose `runLoop` schedules itself on the
host scheduler (`system.run`), at most one map entry per turn.
`runLoop` reschedules only when the callback's return value is truthy
and not a `BreakLoop` (`lastReturned && lastReturned.constructor !==
BreakLoop`); on everything else it resolves the promise.  The
`saveAsync` callback returns `undefined` on its normal path, which is
falsy, so the loop resolves after the first entry it processes: one
call to `saveAsync()` writes at most one entry, after which `.finally`
clears the asynchronous flag.  (A thrown stringify/compress exception
instead escapes the scheduled callback uncaught, so the promise never
settles and the flag stays set.)  The machine below makes the
interleaving of those turns with synchronous `save()` calls explicit.
Mid-execution states of `save()` are reachable states (`savePhase`
holds the entries the active synchronous save has not yet written);
turns of the host scheduler can only run between top-level calls, i.e.
when no synchronous save is mid-execution.  The pending iterator of the
asynchronous loop is modelled as the list of remaining entries
(`asyncRem`); this matches the live `map.entries()` iterator as long as
the map itself is not mutated while the loop is pending.  Starting a
second asynchronous loop while one is pending is outside the model (the
spec leaves that interleaving an open question). -/

/-- Full state of one DataStorage instance together with its host and
the trace of observable events. -/
structure MState where
  data : List (JStr × JValue)
  host : Host
  syncFlag : Bool
  asyncFlag : Bool
  savePhase : Option (List (JStr × JValue))
  asyncRem : Option (List (JStr × JValue))
  trace : List Event

/-- Top-level actions: the begin/step/end phases of a synchronous
`save()` call, the `saveAsync()` call, and one turn of the asynchronous
loop. -/
inductive MAct where
  | beginSave
  | stepSave
  | endSave
  | startAsync
  | asyncTurn
  deriving DecidableEq, Repr

/-- One action of the machine.  `none` means the action is not enabled
in this state.  In `asyncTurn`: an exhausted iterator resolves with
`BreakLoop` reason 0; a set synchronous flag resolves with `BreakLoop`
reason 2 (preemption); a normally processed entry makes the callback
return `undefined`, on which `smoothLoop`'s continuation test fails, so
the promise resolves and `.finally` clears the flag — the loop never
proceeds to a second entry; a throwing stringify/compress escapes the
turn uncaught, leaving the flag set. -/
def step (cfg : Cfg) (s : MState) : MAct → Option MState
  | .beginSave =>
    if s.savePhase.isSome then none
    else if s.syncFlag then some s
    else some { s with syncFlag := true, savePhase := some s.data }
  | .stepSave =>
    match s.savePhase with
    | some ((k, v) :: rem) =>
      match processEntry cfg .syncSave s.host k v with
      | .ok (h2, evs) => some { s with host := h2, trace := s.trace ++ evs, savePhase := some rem }
      | .error _ => some { s with trace := s.trace ++ [.logError], savePhase := some rem }
    | _ => none
  | .endSave =>
    match s.savePhase with
    | some [] => some { s with syncFlag := false, savePhase := none }
    | _ => none
  | .startAsync =>
    if s.savePhase.isSome || s.asyncRem.isSome then none
    else some { s with asyncFlag := true, asyncRem := some s.data }
  | .asyncTurn =>
    if s.savePhase.isSome then none
    else
      match s.asyncRem with
      | none => none
      | some [] => some { s with asyncRem := none, asyncFlag := false }
      | some ((k, v) :: _) =>
        if s.syncFlag then some { s with asyncRem := none, asyncFlag := false }
        else
          match processEntry cfg .asyncSave s.host k v with
          | .ok (h2, evs) =>
            some { s with host := h2, trace := s.trace ++ evs,
                          asyncRem := none, asyncFlag := false }
          | .error _ => some { s with asyncRem := none, trace := s.trace ++ [.uncaught] }

/-- Runs a list of actions from a state. -/
def run (cfg : Cfg) : MState → List MAct → Option MState
  | s, [] => some s
  | s, a :: acts => (step cfg s a).bind fun s2 => run cfg s2 acts

/-- A quiescent initial state. -/
def initState (data : List (JStr × JValue)) (host : Host) : MState :=
  { data := data, host := host, syncFlag := false, asyncFlag := false,
    savePhase := none, asyncRem := none, trace := [] }

/-! ## JS values and the safeLength setter

The `safeLength` setter and the registry entry points check arguments
with constructor tests of the form `value?.constructor !== C`.  The
dynamically typed arguments are modelled by `JSValue`; optional chaining
makes the constructor of `undefined` and `null` come out as `undefined`
(`none`).  Primitive values answer with their wrapper class; boxed
wrapper objects (`new Number(..)` etc.) are not part of the model. -/

/-- JS numbers as far as the claims need them: `NaN` plus rational
values (covering 0, negative and non-integer numbers). -/
inductive JSNumber where
  | nan
  | val (q : ℚ)
  deriving DecidableEq, Repr

/-- Constructor tags observable through `value.constructor`. -/
inductive CtorTag where
  | numberTag
  | stringTag
  | booleanTag
  | objTag (classId : Nat)
  deriving DecidableEq, Repr

/-- Dynamically typed JS arguments. -/
inductive JSValue where
  | undef
  | jsnull
  | boolV (b : Bool)
  | numberV (n : JSNumber)
  | stringV (s : JStr)
  | objectV (classId : Nat)
  deriving DecidableEq, Repr

/-- Model of `value?.constructor` (as a tag; `none` models `undefined`). -/
def constructorOf : JSValue → Option CtorTag
  | .undef => none
  | .jsnull => none
  | .boolV _ => some .booleanTag
  | .numberV _ => some .numberTag
  | .stringV _ => some .stringTag
  | .objectV i => some (.objTag i)

/-- Thrown JS errors distinguished by the claims. -/
inductive JSErr where
  | typeError
  | referenceError
  deriving DecidableEq, Repr

/-- Model of the `DataStorage.prototype.safeLength` setter: it throws a
TypeError when `value?.constructor !== Number`, and otherwise stores the
value unchecked. -/
def setSafeLength (v : JSValue) : Except JSErr JSValue :=
  if constructorOf v = some .numberTag then .ok v else .error .typeError

/-! ## The codec registries

`Compressor` and `NotationHandler` each keep a static ordered list plus
a default.  Object identity (what the JS `Array.prototype.includes`
compares for objects) is modelled by a numeric id. -/

/-- A constructed `Compressor` instance (identity and immutable name). -/
structure CompressorObj where
  id : Nat
  name : JStr
  deriving DecidableEq, Repr

/-- A constructed `NotationHandler` instance. -/
structure NHandlerObj where
  id : Nat
  name : JStr
  deriving DecidableEq, Repr

/-- An argument that is an instance of one of the two registry entry
classes (relevant for the `constructor` checks in the `add` methods). -/
inductive RegEntry where
  | comp (c : CompressorObj)
  | nh (h : NHandlerObj)
  deriving DecidableEq, Repr

/-- The `name` property of a registry entry. -/
def RegEntry.entryName : RegEntry → JStr
  | .comp c => c.name
  | .nh h => h.name

/-- Object identity of registry entries. -/
def RegEntry.identical : RegEntry → RegEntry → Bool
  | .comp c, .comp c2 => c.id == c2.id
  | .nh h, .nh h2 => h.id == h2.id
  | _, _ => false

/-- Argument of the `find` methods: either an instance of the entry
class or a name value. -/
inductive FindArg (α : Type) where
  | inst (x : α)
  | str (s : JStr)

/-- Model of `Compressor.find(value)`: an instance is returned
unchanged; otherwise the first listed compressor whose name passes
`new RegExp(value).test(..)` is returned.  The host regular-expression
engine is abstracted as the predicate `rtest`. -/
def compressorFind (rtest : JStr → JStr → Bool) (lst : List CompressorObj) :
    FindArg CompressorObj → Option CompressorObj
  | .inst c => some c
  | .str s => lst.find? fun x => rtest s x.name

/-- Outcome of a registration attempt: the new list, the returned
success flag, and whether a warning was logged. -/
structure AddResult (α : Type) where
  lst : List α
  returned : Bool
  warned : Bool
  deriving Repr

/-- Model of `Compressor.add(compressor)`: a non-Compressor argument
throws a TypeError; an argument already in the list, or whose name is
already resolvable, logs a warning and returns false; otherwise the
compressor is appended and true is returned. -/
def compressorAdd (rtest : JStr → JStr → Bool) (lst : List CompressorObj) :
    RegEntry → Except JSErr (AddResult CompressorObj)
  | .nh _ => .error .typeError
  | .comp c =>
    if lst.any fun x => x.id == c.id then .ok ⟨lst, false, true⟩
    else if (compressorFind rtest lst (.str c.name)).isSome then .ok ⟨lst, false, true⟩
    else .ok ⟨lst ++ [c], true, false⟩

/-- Model of the `Compressor(compressorName)` constructor: a non-string
name throws a TypeError; otherwise identity compress/decompress methods
are installed and the new instance is passed to `Compressor.add`.
Returns the instance and the updated registry list. -/
def compressorConstruct (rtest : JStr → JStr → Bool) (lst : List CompressorObj)
    (freshId : Nat) (nameArg : JSValue) : Except JSErr (CompressorObj × List CompressorObj) :=
  match nameArg with
  | .stringV s =>
    match compressorAdd rtest lst (.comp ⟨freshId, s⟩) with
    | .ok r => .ok (⟨freshId, s⟩, r.lst)
    | .error e => .error e
  | _ => .error .typeError

/-- Model of `NotationHandler.find(value)`: an instance of
NotationHandler is returned unchanged; otherwise the first listed entry
whose name is strictly equal to the value is returned.  (The list can
only ever contain entries that passed the `add` check, see `nhAdd`.) -/
def nhFind (lst : List RegEntry) : FindArg NHandlerObj → Option RegEntry
  | .inst h => some (.nh h)
  | .str s => lst.find? fun x => s == x.entryName

/-- Model of `NotationHandler.add(notationHandler)` exactly as written
in the source: the guard checks `notationHandler.constructor !==
Compressor`, so every actual NotationHandler instance throws a
TypeError, while Compressor instances pass; both duplicate branches
evaluate a template literal naming the undefined identifier
`compressor`, which throws a ReferenceError. -/
def nhAdd (lst : List RegEntry) : RegEntry → Except JSErr (AddResult RegEntry)
  | .nh _ => .error .typeError
  | .comp c =>
    if lst.any fun x => RegEntry.identical x (.comp c) then .error .referenceError
    else if (nhFind lst (.str c.name)).isSome then .error .referenceError
    else .ok ⟨lst ++ [.comp c], true, false⟩

/-- Model of the `NotationHandler(notationName)` constructor: a
non-string name throws a TypeError; otherwise identity parse/stringify
methods are installed.  Unlike the Compressor constructor, no `add`
call appears in the source, so the registry list is returned
unchanged. -/
def nhConstruct (lst : List RegEntry) (freshId : Nat) (nameArg : JSValue) :
    Except JSErr (NHandlerObj × List RegEntry) :=
  match nameArg with
  | .stringV s => .ok (⟨freshId, s⟩, lst)
  | _ => .error .typeError

/-- The name "none" as code units. -/
def nameNone : JStr := [110, 111, 110, 101]

/-- The name "json" as code units. -/
def nameJson : JStr := [106, 115, 111, 110]

/-- The module-level startup of the library: construct the "none"
compressor and make it the default, then construct the "json" handler,
install `JSON.parse`/`JSON.stringify` on it, and make it the default.
The result collects both registry lists and both defaults. -/
structure StartupState where
  compList : List CompressorObj
  compDefault : Option CompressorObj
  nhList : List RegEntry
  nhDefault : Option NHandlerObj

/-- Runs the startup sequence of the module under an abstract
regular-expression tester. -/
def startup (rtest : JStr → JStr → Bool) : Except JSErr StartupState :=
  match compressorConstruct rtest [] 0 (.stringV nameNone) with
  | .error e => .error e
  | .ok (noComp, clst) =>
    match nhConstruct [] 1 (.stringV nameJson) with
    | .error e => .error e
    | .ok (jsonNh, nlst) =>
      .ok ⟨clst, some noComp, nlst, some jsonNh⟩

/-- The default configuration: default codecs and a host whose writes
succeed. -/
def defaultCfg (len : Nat) : Cfg :=
  { codec := defaultCodec, writeOk := fun _ _ => true, safeLen := len }

/-- The two-entry store used in the concrete scheduler scenarios. -/
def c2data : List (JStr × JValue) := [([97], .jnum 1), ([98], .jnum 2)]

/-- The quiescent state right after `saveAsync()` returns on an empty
store (used as a concrete instance for the flag-exclusion theorem). -/
def afterStartAsync : MState :=
  { data := [], host := [], syncFlag := false, asyncFlag := true,
    savePhase := none, asyncRem := some [], trace := [] }

/-- A codec whose stringify method throws on the value `null` and
otherwise behaves like the default JSON codec (used to exercise the
per-entry error handling). -/
def throwOnNullCodec : Codec where
  stringifyFn v := match v with | .jnull => .error () | _ => .ok (jsonStringify v)
  compressFn s := .ok s
  decompressFn s := .ok s
  parseFn s := match jsonParse s with | some v => .ok v | none => .error ()

/-- Configuration with the throwing stringify method. -/
def throwOnNullCfg : Cfg :=
  { codec := throwOnNullCodec, writeOk := fun _ _ => true, safeLen := 500 }

/-- A store whose first entry makes the throwing codec fail. -/
def nullThenNumData : List (JStr × JValue) := [([97], .jnull), ([98], .jnum 2)]

/-- A store whose second entry is oversized under safe length 1
(`"1"` has length 1, `"22"` has length 2). -/
def c3data : List (JStr × JValue) := [([97], .jnum 1), ([98], .jnum 22)]

/-- The decode step of `load()` fails for this key: either the key is
absent on the host (parsing `undefined` throws) or decompress+parse of
the raw value throws. -/
def decodeFailsAt (cfg : Cfg) (host : Host) (k : JStr) : Prop :=
  match assocGet host k with
  | none => True
  | some raw => (cfg.codec.decompressFn raw).bind cfg.codec.parseFn = .error ()

/-! ## Helper lemmas about the key-value stores -/

example : jsonStringify (.jarr [.jnum 1, .jnum 2, .jnum 3]) = [91, 49, 44, 50, 44, 51, 93] := by
  simp [jsonStringify, stringifyItems, intToDigits, natToDigits]

example : jsonParse [91, 49, 44, 50, 44, 51, 93] = some (.jarr [.jnum 1, .jnum 2, .jnum 3]) := rfl

example :
    jsonParse [123, 34, 97, 34, 58, 92, 34, 92, 92, 93] = none := rfl

example :
    jsonParse [123, 34, 97, 34, 58, 45, 49, 50, 125] = some (.jobj [([97], .jnum (-12))]) := rfl

example : (startup fun a b => a == b) =
    .ok ⟨[⟨0, nameNone⟩], some ⟨0, nameNone⟩, [], some ⟨1, nameJson⟩⟩ := rfl


theorem assocGet_set_self {α : Type} (m : List (JStr × α)) (k : JStr) (v : α) :
    assocGet (assocSet m k v) k = some v := by
  induction m with
  | nil => simp [assocSet, assocGet]
  | cons p m ih =>
    by_cases hp : p.1 = k
    · have h1 : (p.1 == k) = true := by simpa using hp
      simp [assocSet, assocGet, h1, List.find?]
    · have h1 : (p.1 == k) = false := by simpa using hp
      simpa [assocSet, assocGet, h1, List.find?] using ih

theorem assocGet_set_other {α : Type} (m : List (JStr × α)) (k k2 : JStr) (v : α)
    (h : k2 ≠ k) : assocGet (assocSet m k2 v) k = assocGet m k := by
  induction m with
  | nil =>
    have h2 : (k2 == k) = false := by simpa using h
    simp [assocSet, assocGet, h2]
  | cons p m ih =>
    by_cases hp : p.1 = k2
    · have h1 : (p.1 == k2) = true := by simpa using hp
      have h2 : (k2 == k) = false := by simpa using h
      have h3 : (p.1 == k) = false := by simpa [hp] using h
      simp [assocSet, assocGet, h1, h2, h3, List.find?]
    · have h1 : (p.1 == k2) = false := by simpa using hp
      by_cases hpk : p.1 = k
      · have h2 : (p.1 == k) = true := by simpa using hpk
        simp [assocSet, assocGet, h1, h2, List.find?]
      · have h2 : (p.1 == k) = false := by simpa using hpk
        simpa [assocSet, assocGet, h1, h2, List.find?] using ih

theorem assocGet_some_mem_keys {α : Type} (m : List (JStr × α)) (k : JStr) (x : α)
    (h : assocGet m k = some x) : k ∈ m.map Prod.fst := by
  induction m with
  | nil => simp [assocGet] at h
  | cons p m ih =>
    by_cases hp : p.1 = k
    · simp [hp]
    · simp only [assocGet, List.find?, show (p.1 == k) = false by simpa using hp] at h
      simpa using Or.inr (ih h)

theorem find_first_split {α : Type} (p : α → Bool) (l : List α) (x : α) :
    l.find? p = some x ↔
      ∃ l1 l2, l = l1 ++ x :: l2 ∧ p x = true ∧ ∀ y ∈ l1, p y = false := by
  induction l with
  | nil => simp
  | cons a l ih =>
    by_cases hpa : p a = true
    · simp only [List.find?, hpa]
      constructor
      · rintro h
        injection h with h
        exact ⟨[], l, by simp [← h, hpa]⟩
      · rintro ⟨l1, l2, heq, hpx, hfail⟩
        match l1, heq with
        | [], heq => injection heq with h1 h2; simp [h1]
        | b :: l1, heq =>
          injection heq with h1 h2
          exact absurd (h1 ▸ hpa) (by simp [hfail b (by simp)])
    · have hpa2 : p a = false := by simpa using hpa
      simp only [List.find?, hpa2]
      rw [ih]
      constructor
      · rintro ⟨l1, l2, heq, hpx, hfail⟩
        refine ⟨a :: l1, l2, by simp [heq], hpx, ?_⟩
        intro y hy
        rcases List.mem_cons.mp hy with rfl | hy2
        · exact hpa2
        · exact hfail y hy2
      · rintro ⟨l1, l2, heq, hpx, hfail⟩
        match l1, heq with
        | [], heq => injection heq with h1 h2; exact absurd (h1 ▸ hpx) (by simp [hpa2])
        | b :: l1, heq =>
          injection heq with h1 h2
          exact ⟨l1, l2, h2, hpx, fun y hy => hfail y (by simp [hy])⟩

/-! ## Claim theorems: setter and registries -/

/-- C10.  Assigning to `DataStorage.prototype.safeLength` throws a
TypeError exactly when the assigned value is not of Number type; every
Number — including 0, negative numbers, non-integers, and NaN — is
accepted unchecked. -/
theorem safeLength_setter_numbers_only :
    (∀ v : JSValue, setSafeLength v = .ok v ↔ ∃ n, v = .numberV n)
  ∧ (∀ v : JSValue, (∀ n, v ≠ .numberV n) → setSafeLength v = .error .typeError)
  ∧ setSafeLength (.numberV .nan) = .ok (.numberV .nan)
  ∧ setSafeLength (.numberV (.val 0)) = .ok (.numberV (.val 0))
  ∧ setSafeLength (.numberV (.val (-5))) = .ok (.numberV (.val (-5)))
  ∧ setSafeLength (.numberV (.val (1/2))) = .ok (.numberV (.val (1/2))) := by
  refine ⟨fun v => ?_, fun v h => ?_, rfl, rfl, rfl, rfl⟩
  · cases v <;> simp [setSafeLength, constructorOf]
  · cases v <;> first
      | exact absurd rfl (h _)
      | simp [setSafeLength, constructorOf]

/-- Witness for C10 at concrete non-Number inputs. -/
theorem safeLength_setter_numbers_only_witness :
    setSafeLength (.stringV nameJson) = .error .typeError
  ∧ setSafeLength .undef = .error .typeError :=
  ⟨safeLength_setter_numbers_only.2.1 _ fun _ h => JSValue.noConfusion h,
   safeLength_setter_numbers_only.2.1 _ fun _ h => JSValue.noConfusion h⟩

/-- C5 (code bug).  `NotationHandler.add` does not handle duplicates
non-fatally: its guard compares the argument's constructor against
`Compressor`, so genuine NotationHandler instances throw a TypeError,
and both duplicate branches read the undefined identifier `compressor`
inside the warning template, which throws a ReferenceError instead of
warning and returning false.  Only `Compressor.add` behaves as the
claim states (last conjunct). -/
theorem nhAdd_duplicate_throws :
    nhAdd [.comp ⟨5, nameNone⟩] (.comp ⟨5, nameNone⟩) = .error .referenceError
  ∧ nhAdd [.comp ⟨5, nameNone⟩] (.comp ⟨6, nameNone⟩) = .error .referenceError
  ∧ nhAdd [] (.nh ⟨1, nameJson⟩) = .error .typeError
  ∧ compressorAdd (fun a b => a == b) [⟨0, nameNone⟩] (.comp ⟨7, nameNone⟩) =
      .ok ⟨[⟨0, nameNone⟩], false, true⟩ :=
  ⟨rfl, rfl, rfl, rfl⟩

/-- Counterexample for C6: the NotationHandler constructor registers
nothing (the startup registry list stays empty and "json" is not
resolvable by name), even though the "json" handler becomes the
default. -/
theorem nh_construct_no_registration_cex :
    nhConstruct [] 1 (.stringV nameJson) = .ok (⟨1, nameJson⟩, [])
  ∧ (startup fun a b => a == b) =
      .ok ⟨[⟨0, nameNone⟩], some ⟨0, nameNone⟩, [], some ⟨1, nameJson⟩⟩
  ∧ nhFind [] (.str nameJson) = none :=
  ⟨rfl, rfl, rfl⟩

/-- C6 (amended).  Construction of a Compressor passes the new instance
to `Compressor.add` (hence registers it whenever neither its identity
nor its name is taken); construction of a NotationHandler performs no
registration at all; at process start the "none" compressor is
registered and made default while the "json" handler is only made
default, the NotationHandler registry staying empty. -/
theorem construction_registration :
    (∀ rtest lst freshId s,
       compressorConstruct rtest lst freshId (.stringV s) =
         (compressorAdd rtest lst (.comp ⟨freshId, s⟩)).map fun r => (⟨freshId, s⟩, r.lst))
  ∧ (∀ rtest lst freshId s, (∀ x ∈ lst, rtest s x.name = false) →
       (∀ x ∈ lst, x.id ≠ freshId) →
       compressorConstruct rtest lst freshId (.stringV s) =
         .ok (⟨freshId, s⟩, lst ++ [⟨freshId, s⟩]))
  ∧ (∀ lst freshId s h l2, nhConstruct lst freshId (.stringV s) = .ok (h, l2) → l2 = lst)
  ∧ (∀ rtest, startup rtest =
       .ok ⟨[⟨0, nameNone⟩], some ⟨0, nameNone⟩, [], some ⟨1, nameJson⟩⟩) := by
  refine ⟨fun rtest lst freshId s => ?_, fun rtest lst freshId s h1 h2 => ?_,
    fun lst freshId s h l2 hc => ?_, fun rtest => rfl⟩
  · simp only [compressorConstruct]
    cases compressorAdd rtest lst (.comp ⟨freshId, s⟩) <;> simp [Except.map]
  · have ha : (lst.any fun x => x.id == freshId) = false := by
      simp only [List.any_eq_false]
      intro x hx
      simpa using h2 x hx
    have hf : (lst.find? fun x => rtest s x.name) = none :=
      List.find?_eq_none.mpr fun x hx => by simp [h1 x hx]
    simp [compressorConstruct, compressorAdd, compressorFind, ha, hf]
  · have h3 : Except.ok (ε := JSErr) ((⟨freshId, s⟩ : NHandlerObj), lst) = .ok (h, l2) := hc
    injection h3 with h4
    exact (congrArg Prod.snd h4).symm

/-- Witness for C6's amended theorem at concrete inputs. -/
theorem construction_registration_witness :
    compressorConstruct (fun a b => a == b) [] 3 (.stringV nameNone) =
      .ok (⟨3, nameNone⟩, [] ++ [⟨3, nameNone⟩])
  ∧ ([] : List RegEntry) = [] :=
  ⟨construction_registration.2.1 (fun a b => a == b) [] 3 nameNone (by simp) (by simp),
   construction_registration.2.2.1 [] 7 nameJson ⟨7, nameJson⟩ [] rfl⟩

/-- C7.  Registry resolution: an instance argument is returned
unchanged by both `find` methods; otherwise `Compressor.find` returns
the first listed compressor whose name passes the regular-expression
test built from the value (the host regex engine abstracted as
`rtest`), `NotationHandler.find` the first entry whose name is strictly
equal to the value; both return undefined (not an error) when nothing
matches. -/
theorem find_resolution_semantics :
    (∀ rtest lst c, compressorFind rtest lst (.inst c) = some c)
  ∧ (∀ lst h, nhFind lst (.inst h) = some (.nh h))
  ∧ (∀ rtest lst s x, compressorFind rtest lst (.str s) = some x ↔
       ∃ l1 l2, lst = l1 ++ x :: l2 ∧ rtest s x.name = true ∧
         ∀ y ∈ l1, rtest s y.name = false)
  ∧ (∀ rtest lst s, compressorFind rtest lst (.str s) = none ↔
       ∀ y ∈ lst, rtest s y.name = false)
  ∧ (∀ lst s x, nhFind lst (.str s) = some x ↔
       ∃ l1 l2, lst = l1 ++ x :: l2 ∧ s = x.entryName ∧ ∀ y ∈ l1, s ≠ y.entryName)
  ∧ (∀ lst s, nhFind lst (.str s) = none ↔ ∀ y ∈ lst, s ≠ y.entryName) := by
  refine ⟨fun _ _ _ => rfl, fun _ _ => rfl, fun rtest lst s x => ?_, fun rtest lst s => ?_,
    fun lst s x => ?_, fun lst s => ?_⟩
  · simpa [compressorFind] using find_first_split (fun y => rtest s y.name) lst x
  · simp [compressorFind, List.find?_eq_none]
  · simpa [nhFind] using find_first_split (fun y => s == y.entryName) lst x
  · simp [nhFind, List.find?_eq_none]

/-- Witness for C7 at concrete inputs. -/
theorem find_resolution_semantics_witness :
    compressorFind (fun a b => a == b) [] (.inst ⟨0, nameNone⟩) = some ⟨0, nameNone⟩
  ∧ nhFind [.comp ⟨5, nameNone⟩] (.str nameNone) = some (.comp ⟨5, nameNone⟩) :=
  ⟨find_resolution_semantics.1 (fun a b => a == b) [] ⟨0, nameNone⟩,
   (find_resolution_semantics.2.2.2.2.1 [.comp ⟨5, nameNone⟩] nameNone (.comp ⟨5, nameNone⟩)).mpr
     ⟨[], [], rfl, rfl, by simp⟩⟩

/-! ## Claim theorems: load -/

/-- C8.  `load()` is idempotent: once the loaded flag is set, any call
returns the existing map with no host reads (the event list, which
records every host read, is empty) and no state change; and the loaded
flag is true after any call, i.e. it is set unconditionally at the end
of the first pass even when some keys failed to decode. -/
theorem load_idempotent_and_loaded_flag :
    (∀ cfg host ds, ds.loaded = true → load cfg host ds = (ds, [], ds.data))
  ∧ (∀ cfg host ds, ((load cfg host ds).1).loaded = true) := by
  constructor
  · intro cfg host ds h
    simp [load, h]
  · intro cfg host ds
    by_cases h : ds.loaded = true
    · simp [load, h]
    · simp only [Bool.not_eq_true] at h
      simp [load, h]

/-- Witness for C8 at a concrete already-loaded store. -/
theorem load_idempotent_and_loaded_flag_witness :
    load (defaultCfg 500) [] ⟨[([97], .jnum 1)], true, false, false⟩ =
      (⟨[([97], .jnum 1)], true, false, false⟩, [], [([97], .jnum 1)]) :=
  load_idempotent_and_loaded_flag.1 (defaultCfg 500) [] ⟨[([97], .jnum 1)], true, false, false⟩ rfl

/-! ## Claim theorems: the save scheduler -/

/-- Invariant of the machine: the synchronous flag is set exactly while
a synchronous save is mid-execution (the flag is set on entry to
`save()` and cleared before it returns). -/
theorem step_sync_invariant (cfg : Cfg) (s s2 : MState) (a : MAct)
    (h : s.syncFlag = s.savePhase.isSome) (hs : step cfg s a = some s2) :
    s2.syncFlag = s2.savePhase.isSome := by
  cases a <;> simp only [step] at hs <;>
    (repeat' split at hs) <;> simp_all <;> (try subst hs) <;> simp_all

/-- The invariant holds along every run. -/
theorem run_sync_invariant (cfg : Cfg) (acts : List MAct) :
    ∀ s s2 : MState, run cfg s acts = some s2 → s.syncFlag = s.savePhase.isSome →
      s2.syncFlag = s2.savePhase.isSome := by
  induction acts with
  | nil =>
    intro s s2 h hinv
    simp only [run] at h
    injection h with h
    exact h ▸ hinv
  | cons a acts ih =>
    intro s s2 h hinv
    simp only [run, Option.bind_eq_bind] at h
    rcases Option.bind_eq_some.mp h with ⟨s1, hstep, hrun⟩
    exact ih s1 s2 hrun (step_sync_invariant cfg s s1 a hinv hstep)

/-- The preemption branch of the asynchronous loop is dead code at the
top level: whenever a turn of the loop can run (no synchronous save is
mid-execution), the synchronous flag is already false again, because
`save()` resets it before returning within its own turn.  The
`BreakLoop('Synchronous save process started', 2)` exit can therefore
never be taken by turns interleaved at the top level. -/
theorem preemption_branch_dead (cfg : Cfg) (data : List (JStr × JValue)) (host : Host)
    (acts : List MAct) (s : MState) (h : run cfg (initState data host) acts = some s)
    (h2 : s.savePhase = none) : s.syncFlag = false := by
  have hinv := run_sync_invariant cfg acts (initState data host) s h (by simp [initState])
  simpa [h2] using hinv

/-- Counterexample for C9: both save-state flags are simultaneously
true in a reachable state — `saveAsync()` sets the asynchronous flag
and returns; a `save()` that begins while the loop is pending sets the
synchronous flag while the asynchronous one is still set. -/
theorem flags_both_true_reachable_cex :
    (run (defaultCfg 500) (initState [] []) [.startAsync, .beginSave]).map
      (fun s => s.syncFlag && s.asyncFlag) = some true := rfl

/-- C9 (amended).  The two flags are not mutually exclusive in every
reachable state (see the counterexample); they are mutually exclusive
in every reachable quiescent state, i.e. whenever no synchronous save
is mid-execution — in particular at every turn boundary — because the
synchronous flag is only ever true while `save()` is executing. -/
theorem flags_exclusive_at_turn_boundaries (cfg : Cfg) (data : List (JStr × JValue))
    (host : Host) (acts : List MAct) (s : MState)
    (h : run cfg (initState data host) acts = some s) (h2 : s.savePhase = none) :
    ¬(s.syncFlag = true ∧ s.asyncFlag = true) := by
  have h3 := preemption_branch_dead cfg data host acts s h h2
  simp [h3]

/-- Witness for C9's amended theorem: the state reached right after
`saveAsync()` returns. -/
theorem flags_exclusive_at_turn_boundaries_witness :
    ¬(afterStartAsync.syncFlag = true ∧ afterStartAsync.asyncFlag = true) :=
  flags_exclusive_at_turn_boundaries (defaultCfg 500) [] [] [.startAsync]
    afterStartAsync rfl rfl

/-- C2 (code bug).  Failing scenario, evaluated: with entries
`a ↦ 1, b ↦ 2`, `saveAsync()` starts (its first turn is scheduled but
has not yet run); `save()` then runs to completion within one turn
(writing `a` and `b` and resetting the synchronous flag before
returning, first and second trace events); the first turn of the
asynchronous loop then observes the flag false, does NOT take the
preemption exit (`BreakLoop` status 2 — dead code, see
`preemption_branch_dead`), and issues a further host write (`a`, third
trace event) after the synchronous save began — contradicting the
claim that the loop issues no further writes once the synchronous save
begins.  The loop then resolves (the callback returned `undefined`). -/
theorem async_write_after_sync_save_cex :
    (run (defaultCfg 500) (initState c2data [])
      [.startAsync, .beginSave, .stepSave, .stepSave, .endSave, .asyncTurn]).map
      (fun s => (s.trace, s.syncFlag, s.asyncFlag, s.asyncRem)) =
      some ([.hostWrite .syncSave [97] [49],
             .hostWrite .syncSave [98] [50],
             .hostWrite .asyncSave [97] [49]], false, false, none) := by
  have p1 : ∀ (o : Origin) (h : Host), processEntry (defaultCfg 500) o h [97] (.jnum 1) =
      .ok (assocSet h [97] [49], [.hostWrite o [97] [49]]) := by
    intro o h
    simp [processEntry, encodeEntry, defaultCodec, defaultCfg, jsonStringify, intToDigits,
      natToDigits, saveRaw, Except.bind, Except.map]
  have p2 : ∀ (o : Origin) (h : Host), processEntry (defaultCfg 500) o h [98] (.jnum 2) =
      .ok (assocSet h [98] [50], [.hostWrite o [98] [50]]) := by
    intro o h
    simp [processEntry, encodeEntry, defaultCodec, defaultCfg, jsonStringify, intToDigits,
      natToDigits, saveRaw, Except.bind, Except.map]
  simp [run, step, initState, c2data, p1, p2, assocSet]

/-! ## Helper lemmas about the save and load loops -/

/-- The two possible successful outcomes of processing one entry:
either the encoded value fits and the host write succeeds (one write
event), or the write is skipped/fails (one error log, host
untouched). -/
theorem processEntry_ok_cases (cfg : Cfg) (o : Origin) (host : Host) (k : JStr) (v : JValue)
    (h2 : Host) (evs : List Event) (h : processEntry cfg o host k v = .ok (h2, evs)) :
    (∃ dat, encodeEntry cfg.codec v = .ok dat ∧ dat.length ≤ cfg.safeLen ∧
       cfg.writeOk k dat = true ∧ h2 = assocSet host k dat ∧ evs = [.hostWrite o k dat])
  ∨ (h2 = host ∧ evs = [.logError]) := by
  unfold processEntry at h
  cases he : encodeEntry cfg.codec v with
  | error e => rw [he] at h; simp [Except.map] at h
  | ok dat =>
    rw [he] at h
    simp only [Except.map, Except.ok.injEq] at h
    unfold saveRaw at h
    split_ifs at h with hl hw
    · simp only [Prod.mk.injEq] at h
      exact Or.inl ⟨dat, rfl, hl, hw, h.1.symm, h.2.symm⟩
    · simp only [Prod.mk.injEq] at h
      exact Or.inr ⟨h.1.symm, h.2.symm⟩
    · simp only [Prod.mk.injEq] at h
      exact Or.inr ⟨h.1.symm, h.2.symm⟩

/-- The save loop distributes over list concatenation. -/
theorem saveEntriesGo_append (cfg : Cfg) (h : Host) (es1 es2 : List (JStr × JValue)) :
    saveEntriesGo cfg h (es1 ++ es2) =
      ((saveEntriesGo cfg (saveEntriesGo cfg h es1).1 es2).1,
       (saveEntriesGo cfg h es1).2 ++ (saveEntriesGo cfg (saveEntriesGo cfg h es1).1 es2).2) := by
  induction es1 generalizing h with
  | nil => simp [saveEntriesGo]
  | cons e es ih =>
    obtain ⟨k, v⟩ := e
    cases hp : processEntry cfg .syncSave h k v with
    | ok r =>
      obtain ⟨h2, evs⟩ := r
      simp [saveEntriesGo, hp, ih h2]
    | error e2 => simp [saveEntriesGo, hp, ih h]

/-- Entries with other keys never write the key `k` and leave the host
value of `k` unchanged. -/
theorem saveEntriesGo_other_key (cfg : Cfg) (h : Host) (es : List (JStr × JValue)) (k : JStr)
    (hke : ∀ p ∈ es, p.1 ≠ k) :
    assocGet (saveEntriesGo cfg h es).1 k = assocGet h k ∧
    ∀ o s2, Event.hostWrite o k s2 ∉ (saveEntriesGo cfg h es).2 := by
  induction es generalizing h with
  | nil => simp [saveEntriesGo]
  | cons e es ih =>
    obtain ⟨k2, v⟩ := e
    have hk2 : k2 ≠ k := hke (k2, v) (by simp)
    have hke2 : ∀ p ∈ es, p.1 ≠ k := fun p hp => hke p (by simp [hp])
    cases hp : processEntry cfg .syncSave h k2 v with
    | ok r =>
      obtain ⟨h2, evs⟩ := r
      obtain ⟨ihget, ihmem⟩ := ih h2 hke2
      rcases processEntry_ok_cases cfg .syncSave h k2 v h2 evs hp with
        ⟨dat, _, _, _, hh2, hevs⟩ | ⟨hh2, hevs⟩
      · constructor
        · simp only [saveEntriesGo, hp]
          rw [ihget, hh2, assocGet_set_other h k k2 dat hk2]
        · intro o s2
          simp only [saveEntriesGo, hp, hevs, List.mem_append, List.mem_singleton]
          rintro (h3 | h3)
          · exact hk2 (by injection h3 with _ hk3 _; exact hk3.symm)
          · exact ihmem o s2 h3
      · constructor
        · simp only [saveEntriesGo, hp]
          rw [ihget, hh2]
        · intro o s2
          simp only [saveEntriesGo, hp, hevs, List.mem_append, List.mem_singleton]
          rintro (h3 | h3)
          · exact Event.noConfusion h3
          · exact ihmem o s2 h3
    | error e2 =>
      obtain ⟨ihget, ihmem⟩ := ih h hke2
      constructor
      · simp only [saveEntriesGo, hp]
        exact ihget
      · intro o s2
        simp only [saveEntriesGo, hp, List.mem_cons]
        rintro (h3 | h3)
        · exact Event.noConfusion h3
        · exact ihmem o s2 h3

/-- The load loop distributes over key-list concatenation. -/
theorem loadGo_append (cfg : Cfg) (host : Host) (data : List (JStr × JValue))
    (ks1 ks2 : List JStr) :
    loadGo cfg host data (ks1 ++ ks2) =
      ((loadGo cfg host (loadGo cfg host data ks1).1 ks2).1,
       (loadGo cfg host data ks1).2 ++ (loadGo cfg host (loadGo cfg host data ks1).1 ks2).2) := by
  induction ks1 generalizing data with
  | nil => simp [loadGo]
  | cons k ks ih =>
    simp [loadGo, ih (loadKey cfg host data k).1]

/-! ## Claim theorems: per-entry behaviour of the save paths -/

/-- Counterexample for C3: with safe length 1 and entries `a ↦ 1`
(fits) and `b ↦ 22` (oversized, serialized length 2), a full
`saveAsync()` run processes only its first entry and then resolves: the
oversized entry `b` is never visited, so — although its host property
is indeed never set — no error is ever logged for it, contradicting the
claim's saveAsync half.  The second conjunct shows the loop is over (no
further turn is enabled); the third that `b`'s encoding really exceeds
the safe length. -/
theorem oversized_later_entry_unvisited_cex :
    (run (defaultCfg 1) (initState c3data []) [.startAsync, .asyncTurn]).map
      (fun s => (s.trace, s.asyncFlag, s.asyncRem)) =
      some ([.hostWrite .asyncSave [97] [49]], false, none)
  ∧ run (defaultCfg 1) (initState c3data []) [.startAsync, .asyncTurn, .asyncTurn] = none
  ∧ encodeEntry (defaultCfg 1).codec (.jnum 22) = .ok [50, 50] := by
  have p1 : ∀ (o : Origin) (h : Host), processEntry (defaultCfg 1) o h [97] (.jnum 1) =
      .ok (assocSet h [97] [49], [.hostWrite o [97] [49]]) := by
    intro o h
    simp [processEntry, encodeEntry, defaultCodec, defaultCfg, jsonStringify, intToDigits,
      natToDigits, saveRaw, Except.bind, Except.map]
  refine ⟨?_, ?_, ?_⟩
  · simp [run, step, initState, c3data, p1, assocSet]
  · simp [run, step, initState, c3data, p1, assocSet]
  · simp [encodeEntry, defaultCodec, defaultCfg, jsonStringify, intToDigits, natToDigits,
      Except.bind]

/-- C3 (amended).  Oversized-value guard: when the serialized+compressed
value of an entry is strictly longer than the safe length, `#saveRaw`
logs an error and performs no host write; within `save()` the host
property for that key is never set (no write event for the key, host
value of the key unchanged) while the in-memory map is unchanged; in
`saveAsync()` the guard applies only to the single entry the loop
actually processes — an oversized first entry is logged and not
written, and the loop then resolves with the flag cleared (host, map
unchanged); entries after the first are never visited by `saveAsync()`
at all, so their host property is not set but no error is logged for
them (see the counterexample). -/
theorem oversized_value_guard :
    (∀ cfg o host k dat, cfg.safeLen < dat.length →
       saveRaw cfg o host k dat = (host, [.logError]))
  ∧ (∀ cfg ds host pre post k v dat,
       ds.syncFlag = false →
       ds.data = pre ++ (k, v) :: post →
       encodeEntry cfg.codec v = .ok dat →
       cfg.safeLen < dat.length →
       (∀ p ∈ pre ++ post, p.1 ≠ k) →
       (saveDS cfg ds host).1.data = ds.data
       ∧ assocGet (saveDS cfg ds host).2.1 k = assocGet host k
       ∧ (∀ o s2, Event.hostWrite o k s2 ∉ (saveDS cfg ds host).2.2)
       ∧ Event.logError ∈ (saveDS cfg ds host).2.2)
  ∧ (∀ cfg s k v rem dat,
       s.savePhase = none → s.asyncRem = some ((k, v) :: rem) → s.syncFlag = false →
       encodeEntry cfg.codec v = .ok dat → cfg.safeLen < dat.length →
       step cfg s .asyncTurn =
         some { s with asyncRem := none, asyncFlag := false,
                       trace := s.trace ++ [.logError] }) := by
  refine ⟨fun cfg o host k dat hlen => ?_, ?_, ?_⟩
  · have hnle : ¬(dat.length ≤ cfg.safeLen) := not_le.mpr hlen
    simp [saveRaw, hnle]
  · intro cfg ds host pre post k v dat hsf hdata henc hlen hkeys
    have hnle : ¬(dat.length ≤ cfg.safeLen) := not_le.mpr hlen
    have hpe : ∀ h', processEntry cfg .syncSave h' k v = .ok (h', [.logError]) := by
      intro h'
      simp [processEntry, henc, Except.map, saveRaw, hnle]
    have hkpre : ∀ p ∈ pre, p.1 ≠ k := fun p hp => hkeys p (by simp [hp])
    have hkpost : ∀ p ∈ post, p.1 ≠ k := fun p hp => hkeys p (by simp [hp])
    have hsave : saveDS cfg ds host =
        ({ ds with syncFlag := false }, saveEntriesGo cfg host ds.data) := by
      simp [saveDS, hsf]
    rw [hsave]
    obtain ⟨hget1, hmem1⟩ := saveEntriesGo_other_key cfg host pre k hkpre
    obtain ⟨hget2, hmem2⟩ :=
      saveEntriesGo_other_key cfg (saveEntriesGo cfg host pre).1 post k hkpost
    have hmid : saveEntriesGo cfg (saveEntriesGo cfg host pre).1 ((k, v) :: post) =
        ((saveEntriesGo cfg (saveEntriesGo cfg host pre).1 post).1,
         .logError :: (saveEntriesGo cfg (saveEntriesGo cfg host pre).1 post).2) := by
      simp [saveEntriesGo, hpe]
    have hall : saveEntriesGo cfg host ds.data =
        ((saveEntriesGo cfg (saveEntriesGo cfg host pre).1 post).1,
         (saveEntriesGo cfg host pre).2 ++ .logError ::
           (saveEntriesGo cfg (saveEntriesGo cfg host pre).1 post).2) := by
      rw [hdata, saveEntriesGo_append cfg host pre ((k, v) :: post), hmid]
    refine ⟨rfl, ?_, ?_, ?_⟩
    · show assocGet (saveEntriesGo cfg host ds.data).1 k = assocGet host k
      rw [hall]
      exact hget2.trans hget1
    · intro o s2
      show Event.hostWrite o k s2 ∉ (saveEntriesGo cfg host ds.data).2
      rw [hall]
      intro hmem
      rcases List.mem_append.mp hmem with h3 | h3
      · exact hmem1 o s2 h3
      · rcases List.mem_cons.mp h3 with h4 | h4
        · exact Event.noConfusion h4
        · exact hmem2 o s2 h4
    · show Event.logError ∈ (saveEntriesGo cfg host ds.data).2
      rw [hall]
      simp
  · intro cfg s k v rem dat h1 h2 h3 henc hlen
    have hnle : ¬(dat.length ≤ cfg.safeLen) := not_le.mpr hlen
    obtain ⟨sd, sh, sf, saf, sp, sar, st⟩ := s
    simp only at h1 h2 h3
    subst h1; subst h2; subst h3
    simp [step, processEntry, henc, Except.map, saveRaw, hnle]

/-- Witness for C3 at a concrete oversized entry (safe length 0, value
`1` of serialized length 1). -/
theorem oversized_value_guard_witness :
    (saveDS (defaultCfg 0) ⟨[([97], .jnum 1)], false, false, false⟩ []).1.data =
      [([97], .jnum 1)]
  ∧ Event.logError ∈ (saveDS (defaultCfg 0) ⟨[([97], .jnum 1)], false, false, false⟩ []).2.2 := by
  have h := oversized_value_guard.2.1 (defaultCfg 0)
    ⟨[([97], .jnum 1)], false, false, false⟩ [] [] [] [97] (.jnum 1) [49] rfl rfl
    (by simp [encodeEntry, defaultCodec, defaultCfg, jsonStringify, intToDigits, natToDigits,
      Except.bind])
    (by simp [defaultCfg]) (by simp)
  exact ⟨h.1, h.2.2.2⟩

/-- Counterexample for C4: with a stringify method that throws on the
first entry's value, the first turn of the asynchronous loop ends with
an uncaught error (not a contained, logged, skipped one): no further
turn can run (the promise never settles), the second entry is never
written (host still empty), and the asynchronous flag remains stuck
true because the `finally` handler never runs. -/
theorem async_codec_error_kills_loop_cex :
    (run throwOnNullCfg (initState nullThenNumData []) [.startAsync, .asyncTurn]).map
      (fun s => (s.trace, s.asyncFlag, s.asyncRem, s.host)) =
      some ([.uncaught], true, none, [])
  ∧ run throwOnNullCfg (initState nullThenNumData []) [.startAsync, .asyncTurn, .asyncTurn] =
      none :=
  ⟨rfl, rfl⟩

/-- C4 (amended).  Per-entry error containment holds for `save()` and
`load()`: a throwing codec entry in `save()` is logged and skipped and
the loop continues with the remaining entries; a failing decode in
`load()` is read, logged, and skipped and the loop continues.  In
`saveAsync()` per-entry containment does not arise, because the loop
processes at most its first entry whatever happens (the callback
returns `undefined`, on which `smoothLoop`'s continuation test stops):
a host-write error (or oversize) in that first entry is caught inside
`#saveRaw` and logged, after which the loop resolves (conjunct 3),
exactly as it resolves after an error-free first entry (conjunct 5);
a stringify/compress exception instead escapes the scheduled turn
uncaught, terminating the loop with the asynchronous flag left set
(conjunct 4 and the counterexample). -/
theorem per_entry_errors_contained :
    (∀ cfg h pre k v post, encodeEntry cfg.codec v = .error () →
       saveEntriesGo cfg h (pre ++ (k, v) :: post) =
         ((saveEntriesGo cfg (saveEntriesGo cfg h pre).1 post).1,
          (saveEntriesGo cfg h pre).2 ++
            .logError :: (saveEntriesGo cfg (saveEntriesGo cfg h pre).1 post).2))
  ∧ (∀ cfg host data ks1 k ks2, decodeFailsAt cfg host k →
       loadGo cfg host data (ks1 ++ k :: ks2) =
         ((loadGo cfg host data (ks1 ++ ks2)).1,
          (loadGo cfg host data ks1).2 ++ .hostRead k :: .logError ::
            (loadGo cfg host (loadGo cfg host data ks1).1 ks2).2))
  ∧ (∀ cfg s k v rem dat,
       s.savePhase = none → s.asyncRem = some ((k, v) :: rem) → s.syncFlag = false →
       encodeEntry cfg.codec v = .ok dat → dat.length ≤ cfg.safeLen →
       cfg.writeOk k dat = false →
       step cfg s .asyncTurn =
         some { s with asyncRem := none, asyncFlag := false,
                       trace := s.trace ++ [.logError] })
  ∧ (∀ cfg s k v rem,
       s.savePhase = none → s.asyncRem = some ((k, v) :: rem) → s.syncFlag = false →
       encodeEntry cfg.codec v = .error () →
       step cfg s .asyncTurn =
         some { s with asyncRem := none, trace := s.trace ++ [.uncaught] })
  ∧ (∀ cfg s k v rem dat,
       s.savePhase = none → s.asyncRem = some ((k, v) :: rem) → s.syncFlag = false →
       encodeEntry cfg.codec v = .ok dat → dat.length ≤ cfg.safeLen →
       cfg.writeOk k dat = true →
       step cfg s .asyncTurn =
         some { s with host := assocSet s.host k dat,
                       trace := s.trace ++ [.hostWrite .asyncSave k dat],
                       asyncRem := none, asyncFlag := false }) := by
  refine ⟨fun cfg h pre k v post henc => ?_, fun cfg host data ks1 k ks2 hfail => ?_,
    ?_, ?_, ?_⟩
  · have hpe : ∀ h', processEntry cfg .syncSave h' k v = .error () := by
      intro h'
      simp [processEntry, henc, Except.map]
    rw [saveEntriesGo_append cfg h pre ((k, v) :: post)]
    simp only [saveEntriesGo, hpe]
  · have hlk : ∀ d, loadKey cfg host d k = (d, [.hostRead k, .logError]) := by
      intro d
      unfold decodeFailsAt at hfail
      unfold loadKey
      cases hg : assocGet host k with
      | none => simp
      | some raw =>
        rw [hg] at hfail
        simp [hfail]
    rw [loadGo_append cfg host data ks1 (k :: ks2), loadGo_append cfg host data ks1 ks2]
    simp [loadGo, hlk]
  · intro cfg s k v rem dat h1 h2 h3 henc hle hw
    obtain ⟨sd, sh, sf, saf, sp, sar, st⟩ := s
    simp only at h1 h2 h3
    subst h1; subst h2; subst h3
    simp [step, processEntry, henc, Except.map, saveRaw, hle, hw]
  · intro cfg s k v rem h1 h2 h3 henc
    obtain ⟨sd, sh, sf, saf, sp, sar, st⟩ := s
    simp only at h1 h2 h3
    subst h1; subst h2; subst h3
    simp [step, processEntry, henc, Except.map]
  · intro cfg s k v rem dat h1 h2 h3 henc hle hw
    obtain ⟨sd, sh, sf, saf, sp, sar, st⟩ := s
    simp only at h1 h2 h3
    subst h1; subst h2; subst h3
    simp [step, processEntry, henc, Except.map, saveRaw, hle, hw]

/-- Witness for C4's amended theorem: the two-entry store whose first
entry throws, run through the synchronous save — the error is logged
and the second entry is still written. -/
theorem per_entry_errors_contained_witness :
    saveEntriesGo throwOnNullCfg [] ([] ++ ([97], JValue.jnull) :: [([98], .jnum 2)]) =
      ([([98], [50])], [.logError, .hostWrite .syncSave [98] [50]]) := by
  refine (per_entry_errors_contained.1 throwOnNullCfg [] [] [97] .jnull [([98], .jnum 2)]
    rfl).trans ?_
  simp [saveEntriesGo, processEntry, encodeEntry, throwOnNullCfg, throwOnNullCodec,
    jsonStringify, intToDigits, natToDigits, saveRaw, assocSet, Except.map, Except.bind]

/-! ## Round trip of the JSON codec model

The development below proves `jsonParse (jsonStringify v) = some v`,
following the usual parse-serialize inversion scheme: every building
block satisfies `parse (serialized ++ rest) = some (value, rest)`. -/

theorem natToDigits_ne_nil (n : Nat) : natToDigits n ≠ [] := by
  rw [natToDigits]
  split <;> simp

theorem natToDigits_digits (n : Nat) : ∀ c ∈ natToDigits n, isDigit c = true := by
  induction n using Nat.strong_induction_on with
  | _ n ih =>
    intro c hc
    rw [natToDigits] at hc
    by_cases h : n < 10
    · rw [if_pos h] at hc
      simp only [List.mem_singleton] at hc
      simp [hc, isDigit] <;> omega
    · rw [if_neg h] at hc
      rcases List.mem_append.mp hc with h2 | h2
      · exact ih (n / 10) (Nat.div_lt_self (by omega) (by omega)) c h2
      · simp only [List.mem_singleton] at h2
        simp [h2, isDigit] <;> omega

theorem digitsToNat_append (ds : List Nat) (d : Nat) :
    digitsToNat (ds ++ [d]) = digitsToNat ds * 10 + (d - 48) := by
  simp [digitsToNat, List.foldl_append]

theorem digitsToNat_natToDigits (n : Nat) : digitsToNat (natToDigits n) = n := by
  induction n using Nat.strong_induction_on with
  | _ n ih =>
    rw [natToDigits]
    by_cases h : n < 10
    · rw [if_pos h]
      simp [digitsToNat]
    · rw [if_neg h, digitsToNat_append, ih (n / 10) (Nat.div_lt_self (by omega) (by omega))]
      omega

theorem takeDigits_append (ds rest : List Nat) (h : ∀ c ∈ ds, isDigit c = true)
    (h2 : digitStart rest = false) : takeDigits (ds ++ rest) = (ds, rest) := by
  induction ds with
  | nil =>
    cases rest with
    | nil => simp [takeDigits]
    | cons c r =>
      simp only [digitStart] at h2
      simp [takeDigits, h2]
  | cons c ds ih =>
    have hc := h c (by simp)
    simp [takeDigits, hc, ih fun c2 hc2 => h c2 (by simp [hc2])]

theorem parseNum_digits (n : Nat) (rest : List Nat) (h2 : digitStart rest = false) :
    parseNum (natToDigits n ++ rest) = some (n, rest) := by
  have ht := takeDigits_append (natToDigits n) rest (natToDigits_digits n) h2
  cases he : natToDigits n with
  | nil => exact absurd he (natToDigits_ne_nil n)
  | cons d ds =>
    rw [he] at ht
    simp only [List.cons_append] at ht
    have hd := digitsToNat_natToDigits n
    rw [he] at hd
    simp [parseNum, ht, hd]

theorem hexDigit_isHex (m : Nat) (h : m < 16) : isHexDigit (hexDigit m) = true := by
  unfold hexDigit isHexDigit
  split <;> simp <;> omega

theorem hexVal_hexDigit (m : Nat) (h : m < 16) : hexVal (hexDigit m) = m := by
  unfold hexDigit hexVal
  by_cases hm : m < 10
  · rw [if_pos hm, if_pos (by omega : 48 + m ≤ 57)]
    omega
  · rw [if_neg hm, if_neg (by omega : ¬(87 + m ≤ 57))]
    omega

theorem parseStringBody_escape (s : JStr) (rest : List Nat) :
    parseStringBody (s.flatMap escapeChar ++ 34 :: rest) = some (s, rest) := by
  induction s with
  | nil =>
    simp only [List.flatMap_nil, List.nil_append]
    rw [parseStringBody.eq_def]
    simp
  | cons c s ih =>
    simp only [List.flatMap_cons, List.append_assoc]
    by_cases hc34 : c = 34
    · subst hc34
      rw [show escapeChar 34 = [92, 34] from rfl]
      rw [parseStringBody.eq_def]
      simp [ih]
    · by_cases hc92 : c = 92
      · subst hc92
        rw [show escapeChar 92 = [92, 92] from rfl]
        rw [parseStringBody.eq_def]
        simp [ih]
      · by_cases hlt : c < 32
        · have h1 := hexDigit_isHex (c / 4096 % 16) (by omega)
          have h2 := hexDigit_isHex (c / 256 % 16) (by omega)
          have h3 := hexDigit_isHex (c / 16 % 16) (by omega)
          have h4 := hexDigit_isHex (c % 16) (by omega)
          have v1 := hexVal_hexDigit (c / 4096 % 16) (by omega)
          have v2 := hexVal_hexDigit (c / 256 % 16) (by omega)
          have v3 := hexVal_hexDigit (c / 16 % 16) (by omega)
          have v4 := hexVal_hexDigit (c % 16) (by omega)
          have hval : hexVal (hexDigit (c / 4096 % 16)) * 4096 +
              hexVal (hexDigit (c / 256 % 16)) * 256 +
              hexVal (hexDigit (c / 16 % 16)) * 16 + hexVal (hexDigit (c % 16)) = c := by
            rw [v1, v2, v3, v4]
            omega
          have he : escapeChar c = 92 :: 117 :: hex4 c := by
            simp [escapeChar, hc34, hc92, hlt]
          rw [he]
          simp only [hex4, List.cons_append]
          rw [parseStringBody.eq_def]
          simp [h1, h2, h3, h4, hval, ih]
        · have he : escapeChar c = [c] := by
            simp [escapeChar, hc34, hc92, hlt]
          rw [he]
          simp only [List.cons_append, List.nil_append]
          rw [parseStringBody.eq_def]
          simp [hc34, hc92, ih]

theorem stringify_head (v : JValue) :
    ∃ c t, jsonStringify v = c :: t ∧
      (c = 110 ∨ c = 116 ∨ c = 102 ∨ c = 34 ∨ c = 91 ∨ c = 123 ∨ c = 45 ∨ isDigit c = true) := by
  cases v with
  | jnull => exact ⟨110, [117, 108, 108], by simp [jsonStringify], by simp⟩
  | jbool b =>
    cases b
    · exact ⟨102, [97, 108, 115, 101], by simp [jsonStringify], by simp⟩
    · exact ⟨116, [114, 117, 101], by simp [jsonStringify], by simp⟩
  | jnum i =>
    by_cases hi : i < 0
    · exact ⟨45, natToDigits i.natAbs, by simp [jsonStringify, intToDigits, hi], by simp⟩
    · cases he : natToDigits i.toNat with
      | nil => exact absurd he (natToDigits_ne_nil _)
      | cons c t =>
        refine ⟨c, t, by simp [jsonStringify, intToDigits, hi, he], ?_⟩
        exact Or.inr (Or.inr (Or.inr (Or.inr (Or.inr (Or.inr (Or.inr
          (natToDigits_digits i.toNat c (by simp [he]))))))))
  | jstr s =>
    exact ⟨34, s.flatMap escapeChar ++ [34], by simp [jsonStringify, escapeString], by simp⟩
  | jarr xs => exact ⟨91, stringifyItems xs ++ [93], by simp [jsonStringify], by simp⟩
  | jobj kvs => exact ⟨123, stringifyMembers kvs ++ [125], by simp [jsonStringify], by simp⟩

theorem jsonStringify_ne_nil (v : JValue) : jsonStringify v ≠ [] := by
  obtain ⟨c, t, heq, _⟩ := stringify_head v
  simp [heq]

theorem parseVal_quote (f : Nat) (r : List Nat) :
    parseVal (f + 1) (34 :: r) = (parseStringBody r).map fun p => (.jstr p.1, p.2) := rfl

theorem parseVal_minus (f : Nat) (r : List Nat) :
    parseVal (f + 1) (45 :: r) = (parseNum r).map fun p => (.jnum (-(p.1 : Int)), p.2) := rfl

theorem parseVal_digit (f c : Nat) (r : List Nat) (hc : isDigit c = true) :
    parseVal (f + 1) (c :: r) = (parseNum (c :: r)).map fun p => (.jnum (p.1 : Int), p.2) := by
  have h1 : 48 ≤ c ∧ c ≤ 57 := by simpa [isDigit] using hc
  simp [parseVal, hc, show c ≠ 110 by omega, show c ≠ 116 by omega, show c ≠ 102 by omega,
    show c ≠ 34 by omega, show c ≠ 91 by omega, show c ≠ 123 by omega, show c ≠ 45 by omega]

theorem parseVal_lbracket_ne (f c : Nat) (t : List Nat) (hc : c ≠ 93) :
    parseVal (f + 1) (91 :: c :: t) = (parseItems f (c :: t)).map fun p => (.jarr p.1, p.2) := by
  simp [parseVal, hc]

theorem parseVal_lbrace_quote (f : Nat) (t : List Nat) :
    parseVal (f + 1) (123 :: 34 :: t) =
      (parseMembers f (34 :: t)).map fun p => (.jobj p.1, p.2) := rfl

mutual

theorem parseVal_stringify (v : JValue) (f : Nat) (rest : List Nat)
    (hf : (jsonStringify v).length < f) (hrest : digitStart rest = false) :
    parseVal f (jsonStringify v ++ rest) = some (v, rest) := by
  obtain ⟨f', rfl⟩ : ∃ f2, f = f2 + 1 := by
    cases f with
    | zero => exact absurd hf (Nat.not_lt_zero _)
    | succ f2 => exact ⟨f2, rfl⟩
  · cases v with
    | jnull =>
      rw [show jsonStringify .jnull = [110, 117, 108, 108] from by simp [jsonStringify]]
      rfl
    | jbool b =>
      cases b
      · rw [show jsonStringify (.jbool false) = [102, 97, 108, 115, 101] from by
          simp [jsonStringify]]
        rfl
      · rw [show jsonStringify (.jbool true) = [116, 114, 117, 101] from by simp [jsonStringify]]
        rfl
    | jnum i =>
      by_cases hi : i < 0
      · rw [show jsonStringify (.jnum i) = 45 :: natToDigits i.natAbs from by
          simp [jsonStringify, intToDigits, hi]]
        rw [List.cons_append, parseVal_minus, parseNum_digits _ _ hrest]
        simp only [Option.map_some']
        rw [show -(((i.natAbs : Nat) : Int)) = i from by omega]
      · cases he : natToDigits i.toNat with
        | nil => exact absurd he (natToDigits_ne_nil _)
        | cons c t =>
          have hstr : jsonStringify (.jnum i) = c :: t := by
            simp [jsonStringify, intToDigits, hi, he]
          have hcdig : isDigit c = true := natToDigits_digits i.toNat c (by simp [he])
          rw [hstr, List.cons_append, parseVal_digit f' c _ hcdig]
          rw [show c :: (t ++ rest) = natToDigits i.toNat ++ rest from by rw [he]; rfl]
          rw [parseNum_digits _ _ hrest]
          simp only [Option.map_some']
          rw [show (((i.toNat : Nat) : Int)) = i from by omega]
    | jstr s =>
      have hstr : jsonStringify (.jstr s) = 34 :: (s.flatMap escapeChar ++ [34]) := by
        simp [jsonStringify, escapeString]
      rw [hstr, List.cons_append, parseVal_quote]
      rw [show (s.flatMap escapeChar ++ [34]) ++ rest = s.flatMap escapeChar ++ 34 :: rest
        from by simp]
      rw [parseStringBody_escape]
      simp
    | jarr xs =>
      cases xs with
      | nil =>
        rw [show jsonStringify (.jarr []) = [91, 93] from by simp [jsonStringify, stringifyItems]]
        rfl
      | cons x xs' =>
        obtain ⟨c, t, hx, hcprop⟩ := stringify_head x
        have hc93 : c ≠ 93 := by
          rcases hcprop with h | h | h | h | h | h | h | h <;>
            first
            | omega
            | (simp [isDigit] at h; omega)
        have hitems : ∃ t2, stringifyItems (x :: xs') = c :: t2 := by
          cases xs' with
          | nil => exact ⟨t, by simp [stringifyItems, hx]⟩
          | cons y ys => exact ⟨t ++ 44 :: stringifyItems (y :: ys), by simp [stringifyItems, hx]⟩
        obtain ⟨t2, ht2⟩ := hitems
        have hstr : jsonStringify (.jarr (x :: xs')) =
            91 :: (stringifyItems (x :: xs') ++ [93]) := by
          simp [jsonStringify]
        have hflen : (stringifyItems (x :: xs')).length + 1 < f' := by
          rw [hstr] at hf
          simp only [List.length_cons, List.length_append, List.length_singleton] at hf
          omega
        rw [hstr]
        rw [show (91 :: (stringifyItems (x :: xs') ++ [93])) ++ rest
              = 91 :: (stringifyItems (x :: xs') ++ 93 :: rest) from by simp]
        rw [ht2, List.cons_append, parseVal_lbracket_ne f' c _ hc93, ← List.cons_append, ← ht2]
        rw [parseItems_stringify (x :: xs') f' rest (by simp) hflen]
        rfl
    | jobj kvs =>
      cases kvs with
      | nil =>
        rw [show jsonStringify (.jobj []) = [123, 125] from by
          simp [jsonStringify, stringifyMembers]]
        rfl
      | cons kv kvs' =>
        obtain ⟨k, v2⟩ := kv
        have hmem : ∃ t2, stringifyMembers ((k, v2) :: kvs') = 34 :: t2 := by
          cases kvs' with
          | nil =>
            exact ⟨(k.flatMap escapeChar ++ [34]) ++ 58 :: jsonStringify v2,
              by simp [stringifyMembers, escapeString]⟩
          | cons m ms =>
            exact ⟨(k.flatMap escapeChar ++ [34]) ++ 58 :: jsonStringify v2 ++
              44 :: stringifyMembers (m :: ms), by simp [stringifyMembers, escapeString]⟩
        obtain ⟨t2, ht2⟩ := hmem
        have hstr : jsonStringify (.jobj ((k, v2) :: kvs')) =
            123 :: (stringifyMembers ((k, v2) :: kvs') ++ [125]) := by
          simp [jsonStringify]
        have hflen : (stringifyMembers ((k, v2) :: kvs')).length + 1 < f' := by
          rw [hstr] at hf
          simp only [List.length_cons, List.length_append, List.length_singleton] at hf
          omega
        rw [hstr]
        rw [show (123 :: (stringifyMembers ((k, v2) :: kvs') ++ [125])) ++ rest
              = 123 :: (stringifyMembers ((k, v2) :: kvs') ++ 125 :: rest) from by simp]
        rw [ht2, List.cons_append, parseVal_lbrace_quote, ← List.cons_append, ← ht2]
        rw [parseMembers_stringify ((k, v2) :: kvs') f' rest (by simp) hflen]
        rfl
termination_by f
decreasing_by all_goals omega

theorem parseItems_stringify (xs : List JValue) (f : Nat) (rest : List Nat)
    (hne : xs ≠ []) (hf : (stringifyItems xs).length + 1 < f) :
    parseItems f (stringifyItems xs ++ 93 :: rest) = some (xs, rest) := by
  obtain ⟨f', rfl⟩ : ∃ f2, f = f2 + 1 := by
    cases f with
    | zero => exact absurd hf (Nat.not_lt_zero _)
    | succ f2 => exact ⟨f2, rfl⟩
  · cases xs with
    | nil => exact absurd rfl hne
    | cons x xs' =>
      cases xs' with
      | nil =>
        rw [show stringifyItems [x] = jsonStringify x from by simp [stringifyItems]]
        rw [show stringifyItems [x] = jsonStringify x from by simp [stringifyItems]] at hf
        simp only [parseItems]
        rw [parseVal_stringify x f' (93 :: rest) (by omega) (by simp [digitStart, isDigit])]
        rfl
      | cons y ys =>
        have hsi : stringifyItems (x :: y :: ys) =
            jsonStringify x ++ 44 :: stringifyItems (y :: ys) := by
          simp [stringifyItems]
        have hx1 : 1 ≤ (jsonStringify x).length :=
          List.length_pos.mpr (jsonStringify_ne_nil x)
        rw [hsi] at hf
        simp only [List.length_append, List.length_cons] at hf
        rw [hsi]
        simp only [parseItems, List.append_assoc, List.cons_append]
        rw [parseVal_stringify x f' _ (by omega) (by simp [digitStart, isDigit])]
        simp only [Option.some_bind]
        rw [parseItems_stringify (y :: ys) f' rest (by simp) (by omega)]
        rfl
termination_by f
decreasing_by all_goals omega

theorem parseMembers_stringify (kvs : List (JStr × JValue)) (f : Nat) (rest : List Nat)
    (hne : kvs ≠ []) (hf : (stringifyMembers kvs).length + 1 < f) :
    parseMembers f (stringifyMembers kvs ++ 125 :: rest) = some (kvs, rest) := by
  obtain ⟨f', rfl⟩ : ∃ f2, f = f2 + 1 := by
    cases f with
    | zero => exact absurd hf (Nat.not_lt_zero _)
    | succ f2 => exact ⟨f2, rfl⟩
  · cases kvs with
    | nil => exact absurd rfl hne
    | cons kv kvs' =>
      obtain ⟨k, v⟩ := kv
      cases kvs' with
      | nil =>
        have hsm : stringifyMembers [(k, v)] = escapeString k ++ 58 :: jsonStringify v := by
          simp [stringifyMembers]
        rw [hsm] at hf
        simp only [List.length_append, List.length_cons, escapeString] at hf
        rw [hsm]
        simp only [escapeString, List.cons_append, List.append_assoc, List.singleton_append,
          List.nil_append]
        simp only [parseMembers]
        rw [parseStringBody_escape]
        simp only [Option.some_bind]
        rw [parseVal_stringify v f' _ (by omega) (by simp [digitStart, isDigit])]
        rfl
      | cons m ms =>
        have hsm : stringifyMembers ((k, v) :: m :: ms) =
            escapeString k ++ 58 :: jsonStringify v ++ 44 :: stringifyMembers (m :: ms) := by
          simp [stringifyMembers]
        have hv1 : 1 ≤ (jsonStringify v).length :=
          List.length_pos.mpr (jsonStringify_ne_nil v)
        rw [hsm] at hf
        simp only [List.length_append, List.length_cons, escapeString] at hf
        rw [hsm]
        simp only [escapeString, List.cons_append, List.append_assoc, List.singleton_append,
          List.nil_append]
        simp only [parseMembers]
        rw [parseStringBody_escape]
        simp only [Option.some_bind]
        rw [parseVal_stringify v f' _ (by omega) (by simp [digitStart, isDigit])]
        simp only [Option.some_bind]
        rw [parseMembers_stringify (m :: ms) f' rest (by simp) (by omega)]
        rfl
termination_by f
decreasing_by all_goals omega

end

/-- The stringify/parse pair of the default "json" notation handler is
inverse: parsing the canonical rendering of any value recovers the
value. -/
theorem jsonParse_jsonStringify (v : JValue) : jsonParse (jsonStringify v) = some v := by
  unfold jsonParse
  have h := parseVal_stringify v ((jsonStringify v).length + 1) [] (by omega) rfl
  rw [List.append_nil] at h
  rw [h]
  rfl

/-! ## Claim theorem: the round-trip law -/

/-- After the save loop runs, the host holds the encoded value of an
entry whose encoding fits (entries after it having other keys). -/
theorem saveEntriesGo_writes (cfg : Cfg) (host : Host) (pre post : List (JStr × JValue))
    (k : JStr) (v : JValue) (dat : JStr)
    (hpost : ∀ p ∈ post, p.1 ≠ k)
    (henc : encodeEntry cfg.codec v = .ok dat)
    (hlen : dat.length ≤ cfg.safeLen)
    (hw : cfg.writeOk k dat = true) :
    assocGet (saveEntriesGo cfg host (pre ++ (k, v) :: post)).1 k = some dat := by
  rw [saveEntriesGo_append]
  have hpe : processEntry cfg .syncSave (saveEntriesGo cfg host pre).1 k v =
      .ok (assocSet (saveEntriesGo cfg host pre).1 k dat, [.hostWrite .syncSave k dat]) := by
    simp [processEntry, henc, Except.map, saveRaw, hlen, hw]
  simp only [saveEntriesGo, hpe]
  rw [(saveEntriesGo_other_key cfg (assocSet (saveEntriesGo cfg host pre).1 k dat) post k
    hpost).1]
  exact assocGet_set_self (saveEntriesGo cfg host pre).1 k dat

/-- Once the host decodes key `k` to `v`, the load loop leaves `k`
mapped to `v` whenever it visits it (or it was already set). -/
theorem loadGo_get (cfg : Cfg) (host : Host) (k : JStr) (v : JValue) (raw : JStr)
    (hraw : assocGet host k = some raw)
    (hdec : (cfg.codec.decompressFn raw).bind cfg.codec.parseFn = .ok v) :
    ∀ (keys : List JStr) (data : List (JStr × JValue)),
      (k ∈ keys ∨ assocGet data k = some v) →
      assocGet (loadGo cfg host data keys).1 k = some v := by
  intro keys
  induction keys with
  | nil =>
    intro data h
    rcases h with h | h
    · simp at h
    · simpa [loadGo] using h
  | cons k2 ks ih =>
    intro data h
    by_cases hk : k2 = k
    · subst hk
      have hlk : loadKey cfg host data k2 = (assocSet data k2 v, [.hostRead k2]) := by
        simp [loadKey, hraw, hdec]
      simp only [loadGo, hlk]
      exact ih _ (Or.inr (assocGet_set_self data k2 v))
    · have hpres : assocGet (loadKey cfg host data k2).1 k = assocGet data k := by
        unfold loadKey
        cases hg : assocGet host k2 with
        | none => simp
        | some raw2 =>
          cases hd : (cfg.codec.decompressFn raw2).bind cfg.codec.parseFn with
          | ok v2 => simp [hd, assocGet_set_other data k k2 v2 hk]
          | error e => simp [hd]
      simp only [loadGo]
      rcases h with h | h
      · rcases List.mem_cons.mp h with h2 | h2
        · exact absurd h2.symm hk
        · exact ih _ (Or.inl h2)
      · exact ih _ (Or.inr (hpres.trans h))

/-- C1.  Round-trip law: with the default codecs (identity compressor,
JSON notation handler) and a host whose writes succeed, for every key
in the map whose serialized (and identically "compressed") form is at
most the safe length, saving and then loading into a fresh DataStorage
on the same target yields a map whose value at that key equals the
value originally stored. -/
theorem roundtrip_save_load (data : List (JStr × JValue)) (host0 : Host) (safeLen : Nat)
    (k : JStr) (v : JValue)
    (hget : assocGet data k = some v)
    (hnodup : (data.map Prod.fst).Nodup)
    (hlen : (jsonStringify v).length ≤ safeLen) :
    assocGet (load (defaultCfg safeLen)
        (saveDS (defaultCfg safeLen) ⟨data, false, false, false⟩ host0).2.1
        ⟨[], false, false, false⟩).2.2 k = some v := by
  obtain ⟨p, hfind, hp2⟩ : ∃ p, data.find? (fun p => p.1 == k) = some p ∧ p.2 = v := by
    unfold assocGet at hget
    cases hf : data.find? (fun p => p.1 == k) with
    | none => rw [hf] at hget; simp at hget
    | some p =>
      rw [hf] at hget
      exact ⟨p, rfl, by simpa using hget⟩
  obtain ⟨pre, post, hdata, hpk, hprefail⟩ := (find_first_split _ data p).mp hfind
  have hp1 : p.1 = k := by simpa using hpk
  have hpeq : p = (k, v) := by
    obtain ⟨pk, pv⟩ := p
    simp only at hp1 hp2
    rw [hp1, hp2]
  rw [hpeq] at hdata
  have hpost : ∀ q ∈ post, q.1 ≠ k := by
    intro q hq
    rw [hdata] at hnodup
    simp only [List.map_append, List.map_cons] at hnodup
    have h2 := (List.nodup_append.mp hnodup).2.1
    have h3 := List.nodup_cons.mp h2
    intro heq
    exact h3.1 (heq ▸ List.mem_map_of_mem Prod.fst hq)
  have henc : encodeEntry (defaultCfg safeLen).codec v = .ok (jsonStringify v) := by
    simp [encodeEntry, defaultCodec, defaultCfg, Except.bind]
  have hsave : (saveDS (defaultCfg safeLen) ⟨data, false, false, false⟩ host0).2.1 =
      (saveEntriesGo (defaultCfg safeLen) host0 data).1 := by
    simp [saveDS]
  have hwrote : assocGet (saveEntriesGo (defaultCfg safeLen) host0 data).1 k =
      some (jsonStringify v) := by
    rw [hdata]
    exact saveEntriesGo_writes (defaultCfg safeLen) host0 pre post k v (jsonStringify v)
      hpost henc hlen rfl
  rw [hsave]
  have hdec : ((defaultCfg safeLen).codec.decompressFn (jsonStringify v)).bind
      (defaultCfg safeLen).codec.parseFn = .ok v := by
    simp [defaultCodec, defaultCfg, Except.bind, jsonParse_jsonStringify]
  have hload : (load (defaultCfg safeLen) (saveEntriesGo (defaultCfg safeLen) host0 data).1
      ⟨[], false, false, false⟩).2.2 =
      (loadGo (defaultCfg safeLen) (saveEntriesGo (defaultCfg safeLen) host0 data).1 []
        ((saveEntriesGo (defaultCfg safeLen) host0 data).1.map Prod.fst)).1 := by
    simp [load]
  rw [hload]
  exact loadGo_get (defaultCfg safeLen) _ k v (jsonStringify v) hwrote hdec _ []
    (Or.inl (assocGet_some_mem_keys _ k _ hwrote))

/-- Witness for C1: the spec's own scenario — store
`{"a": [1,2,3], "b": "x"}` with safe length 500, save, reload into a
fresh store, and read key "a" back. -/
theorem roundtrip_save_load_witness :
    assocGet (load (defaultCfg 500)
        (saveDS (defaultCfg 500)
          ⟨[([97], .jarr [.jnum 1, .jnum 2, .jnum 3]), ([98], .jstr [120])],
           false, false, false⟩ []).2.1
        ⟨[], false, false, false⟩).2.2 [97] = some (.jarr [.jnum 1, .jnum 2, .jnum 3]) :=
  roundtrip_save_load [([97], .jarr [.jnum 1, .jnum 2, .jnum 3]), ([98], .jstr [120])]
    [] 500 [97] (.jarr [.jnum 1, .jnum 2, .jnum 3]) rfl (by decide)
    (by simp [jsonStringify, stringifyItems, intToDigits, natToDigits])

end DataStorage
